import Mathlib

/-!
Verification development for the IntegraMind retrieval core
(`src/chat_ai`): knowledge graph (`knowledge_graph.py`), enhanced
memory (`enhanced_memory.py`), embedding backend (`embeddings.py`),
vector stores (`vector_store.py`) and the retrieval orchestrator's
cache (`brain.py`).  Python floats are embedded as exact rationals
(`ℚ`); Python dicts keyed by strings are embedded as insertion-ordered
association lists, matching CPython's insertion-ordered dict
semantics; the sqlite persistence layer mirrors the in-memory state
and is not modelled separately.
-/

namespace IntegraMind

/-- Contiguous-sublist test on character lists: `needle` occurs
somewhere in `hay` (the empty needle always occurs). -/
def isSubstrChars (needle : List Char) : List Char → Bool
  | [] => needle.isEmpty
  | c :: t => needle.isPrefixOf (c :: t) || isSubstrChars needle t

/-- Python `s.lower()`, as the lowercased character list (identical
content to `String.toLower`, kept in list form so concrete instances
reduce in the kernel). -/
def pyLower (s : String) : List Char :=
  s.toList.map Char.toLower

/-- Python `needle in hay` on already-lowercased strings. -/
def strIn (needle hay : List Char) : Bool :=
  isSubstrChars needle hay

/-! ## Knowledge graph (`knowledge_graph.py`) -/

/-- `KnowledgeNode` dataclass.  The `metadata : Dict[str, Any]` field is
embedded as a string-to-string association list (no claim inspects the
values beyond identity). -/
structure KnowledgeNode where
  id : String
  type : String
  label : String
  description : String
  metadata : List (String × String)
deriving DecidableEq, Repr

/-- `KnowledgeEdge` dataclass.  `evidence` is kept as a `Finset` because
the only mutation the source performs is `list(set(old + new))`, i.e. a
set union with unspecified order. -/
structure KnowledgeEdge where
  source : String
  target : String
  relation_type : String
  weight : ℚ
  evidence : Finset String
deriving DecidableEq

/-- In-memory state of `KnowledgeGraph`: `self.nodes` is a dict keyed by
node id (insertion ordered) and `self.edges` a list. -/
structure KnowledgeGraph where
  nodes : List (String × KnowledgeNode)
  edges : List KnowledgeEdge
deriving DecidableEq

/-- `KnowledgeGraph()` on a fresh database: no nodes, no edges. -/
def KnowledgeGraph.empty : KnowledgeGraph := ⟨[], []⟩

/-- Membership test `node_id in self.nodes` (dict key lookup). -/
def KnowledgeGraph.containsNode (g : KnowledgeGraph) (nodeId : String) : Bool :=
  g.nodes.any (fun p => p.1 = nodeId)

/-- `self.nodes.get(node_id)`. -/
def KnowledgeGraph.lookupNode (g : KnowledgeGraph) (nodeId : String) :
    Option KnowledgeNode :=
  (g.nodes.find? (fun p => p.1 = nodeId)).map Prod.snd

/-- Dict assignment `self.nodes[node.id] = node`: replaces in place when
the key exists (CPython keeps the original position), appends otherwise. -/
def upsertNode (nodes : List (String × KnowledgeNode)) (n : KnowledgeNode) :
    List (String × KnowledgeNode) :=
  if nodes.any (fun p => p.1 = n.id) then
    nodes.map (fun p => if p.1 = n.id then (n.id, n) else p)
  else
    nodes ++ [(n.id, n)]

/-- `KnowledgeGraph.add_node`: upsert by id (DB write mirrors memory). -/
def KnowledgeGraph.add_node (g : KnowledgeGraph) (n : KnowledgeNode) :
    KnowledgeGraph :=
  { g with nodes := upsertNode g.nodes n }

/-- Key equality used by `add_edge` to detect a duplicate relation:
same source, target and relation_type. -/
def edgeKeyMatches (e₁ e₂ : KnowledgeEdge) : Bool :=
  e₁.source = e₂.source ∧ e₁.target = e₂.target ∧
    e₁.relation_type = e₂.relation_type

/-- The update `add_edge` performs on the stored edge `old` when a new
edge `new` with the same key arrives: if `new.weight > old.weight` the
weight is overwritten and the evidence lists are concatenated and
deduplicated (`list(set(...))`, i.e. set union); otherwise nothing. -/
def mergeEdge (old new : KnowledgeEdge) : KnowledgeEdge :=
  if old.weight < new.weight then
    { old with weight := new.weight, evidence := old.evidence ∪ new.evidence }
  else old

/-- In-place mutation of the first stored edge whose key matches
(`next(e for e in self.edges if ...)` finds the first match). -/
def updateFirstEdge : List KnowledgeEdge → KnowledgeEdge → List KnowledgeEdge
  | [], _ => []
  | x :: xs, e =>
      if edgeKeyMatches x e then mergeEdge x e :: xs
      else x :: updateFirstEdge xs e

/-- `KnowledgeGraph.add_edge`: reject (log and drop) when an endpoint is
missing from `self.nodes`; merge into the first stored edge with the
same (source, target, relation_type) key when one exists; append
otherwise. -/
def KnowledgeGraph.add_edge (g : KnowledgeGraph) (e : KnowledgeEdge) :
    KnowledgeGraph :=
  if ¬ g.containsNode e.source then g
  else if ¬ g.containsNode e.target then g
  else if g.edges.any (fun x => edgeKeyMatches x e) then
    { g with edges := updateFirstEdge g.edges e }
  else
    { g with edges := g.edges ++ [e] }

/-- `KnowledgeGraph.find_nodes`: case-insensitive substring match of the
query against label or description, optionally filtered by node type,
iterating `self.nodes.values()` in insertion order and truncating to
`limit`. -/
def KnowledgeGraph.find_nodes (g : KnowledgeGraph) (query : String)
    (nodeType : Option String) (limit : Nat) : List KnowledgeNode :=
  let queryLower := pyLower query
  ((g.nodes.map Prod.snd).filter (fun n =>
      (match nodeType with
       | some t => n.type = t
       | none => true)
      && (strIn queryLower (pyLower n.label)
          || strIn queryLower (pyLower n.description)))).take limit

/-- `direction` argument of `get_related_nodes`. -/
inductive Direction where
  | outgoing
  | incoming
  | both
deriving DecidableEq

/-- `KnowledgeGraph.get_related_nodes`: walk `self.edges` in order; for
each edge passing the relation filter, first append the (target, edge)
pair if the edge leaves `node_id`, then the (source, edge) pair if the
edge enters it, resolving endpoints through `self.nodes.get`. -/
def KnowledgeGraph.get_related_nodes (g : KnowledgeGraph) (nodeId : String)
    (relationType : Option String) (direction : Direction) :
    List (KnowledgeNode × KnowledgeEdge) :=
  if ¬ g.containsNode nodeId then []
  else
    g.edges.flatMap (fun e =>
      if (match relationType with
          | some rt => decide (¬ (e.relation_type = rt))
          | none => false) then []
      else
        (if (direction = .outgoing ∨ direction = .both) ∧ e.source = nodeId then
          match g.lookupNode e.target with
          | some tn => [(tn, e)]
          | none => []
        else []) ++
        (if (direction = .incoming ∨ direction = .both) ∧ e.target = nodeId then
          match g.lookupNode e.source with
          | some sn => [(sn, e)]
          | none => []
        else []))

/-- `KnowledgeGraph._calculate_path_score`: base 1.0, +0.2 per distinct
node type on the path, −0.1 per step beyond 5, +0.5 if the path ends in
a `result` node, clamped below at 0. -/
def calculate_path_score (path : List (String × String × String)) : ℚ :=
  if path = [] then 0
  else
    let score : ℚ := 1
    let score := score + ((path.map (fun s => s.2.2)).dedup.length : ℚ) * (2/10)
    let score := if 5 < path.length then score - ((path.length - 5 : ℕ) : ℚ) * (1/10) else score
    let score := if (path.getLast?.map (fun s => s.2.2)) = some "result" then score + (5/10) else score
    if score ≤ 0 then 0 else score

/-- A path record collected by the DFS inside `find_solution_path`:
the raw (relation, node id, node type) step list, the label sequence,
and the score. -/
structure PathData where
  path : List (String × String × String)
  sequence : List String
  score : ℚ
deriving DecidableEq

/-- The inner `dfs` of `find_solution_path`, made functional: the
mutable `visited_edges` set (which Python adds to before each recursive
call and removes from right after, so it always holds exactly the edges
on the current branch) becomes a parameter, and discovered paths are
returned instead of appended.  `fuel` is only a termination device: the
`depth > max_depth` guard fires before fuel can run out whenever
`fuel ≥ max_depth + 2 - depth`, which every call below maintains. -/
def dfsPaths (g : KnowledgeGraph) (maxDepth : Nat) :
    Nat → String → List (String × String × String) → Nat → List String →
    List (String × String × String) → List PathData
  | 0, _, _, _, _, _ => []
  | Nat.succ fuel, nodeId, path, depth, seq, visited =>
    if maxDepth < depth then []
    else
      match g.lookupNode nodeId with
      | none => []
      | some node =>
        if node.type = "result" then
          if 2 ≤ path.length then [⟨path, seq, calculate_path_score path⟩] else []
        else
          let related := g.get_related_nodes nodeId none .outgoing
          let candidates := related.filterMap (fun p =>
            let key := (nodeId, p.1.id, p.2.relation_type)
            if visited.contains key then none else some (p.1, p.2, key))
          let prioritized := candidates.filter
            (fun c => c.1.type = "action" ∨ c.1.type = "tool")
          let regular := candidates.filter
            (fun c => ¬ (c.1.type = "action" ∨ c.1.type = "tool"))
          (prioritized ++ regular).flatMap (fun c =>
            dfsPaths g maxDepth fuel c.1.id
              (path ++ [(c.2.1.relation_type, c.1.id, c.1.type)])
              (depth + 1) (seq ++ [c.1.label]) (visited ++ [c.2.2]))

/-- Insert `a` into a score-descending list, before the first element
whose score is ≤ `a`'s (so earlier-discovered paths stay ahead on a
tie). -/
def insertByScoreDesc (a : PathData) : List PathData → List PathData
  | [] => [a]
  | b :: t => if b.score ≤ a.score then a :: b :: t else b :: insertByScoreDesc a t

/-- `paths.sort(key=lambda x: x["score"], reverse=True)`: CPython's sort
is stable, so this is the stable descending sort by score. -/
def sortByScoreDesc : List PathData → List PathData
  | [] => []
  | a :: t => insertByScoreDesc a (sortByScoreDesc t)

/-- One step of a formatted solution path: 1-based enumeration index,
resolved node, relation label (`"start"` on the first step) and node
type. -/
structure FormattedStep where
  step : Nat
  node : KnowledgeNode
  relation : String
  type : String
deriving DecidableEq

/-- One formatted solution path: step list, its length, the path score
and the label sequence. -/
structure FormattedPath where
  path : List FormattedStep
  length : Nat
  score : ℚ
  sequence : List String
deriving DecidableEq

/-- `KnowledgeGraph.find_solution_path`: resolve candidate `problem`
nodes by substring match (with the redundant second-chance scan the
source performs when the first lookup is empty), run the DFS from each
candidate starting from the `("start", id, "problem")` step at depth 0,
sort the discovered paths by score descending (stably), keep the top 5
and format them, skipping steps whose node id no longer resolves and
dropping paths whose step list comes out empty. -/
def KnowledgeGraph.find_solution_path (g : KnowledgeGraph) (problem : String)
    (maxDepth : Nat) : List FormattedPath :=
  let problemNodes := g.find_nodes problem (some "problem") 10
  let problemNodes :=
    if problemNodes = [] then
      let allProblems := g.find_nodes "" (some "problem") 10
      let problemLower := pyLower problem
      allProblems.filter (fun p =>
        strIn problemLower (pyLower p.label) || strIn problemLower (pyLower p.description))
    else problemNodes
  if problemNodes = [] then []
  else
    let paths := problemNodes.flatMap (fun pn =>
      dfsPaths g maxDepth (maxDepth + 2) pn.id [("start", pn.id, "problem")] 0
        [pn.label] [])
    let sorted := sortByScoreDesc paths
    (sorted.take 5).filterMap (fun pd =>
      let steps := pd.path.enum.filterMap (fun ip =>
        match g.lookupNode ip.2.2.1 with
        | some node =>
            some ⟨ip.1 + 1, node, if 0 < ip.1 then ip.2.1 else "start", ip.2.2.2⟩
        | none => none)
      if steps = [] then none
      else some ⟨steps, steps.length, pd.score, pd.sequence⟩)

/-- Mutating operations on a `KnowledgeGraph` (the claims' reachable
states are generated by these). -/
inductive KGOp where
  | addNode (n : KnowledgeNode)
  | addEdge (e : KnowledgeEdge)

/-- Apply one operation. -/
def KGOp.apply (g : KnowledgeGraph) : KGOp → KnowledgeGraph
  | .addNode n => g.add_node n
  | .addEdge e => g.add_edge e

/-- Replay a sequence of operations from the empty graph. -/
def replayKG (ops : List KGOp) : KnowledgeGraph :=
  ops.foldl KGOp.apply KnowledgeGraph.empty

/-! ## Enhanced memory (`enhanced_memory.py`) -/

/-- The two metadata flags `_calculate_importance` inspects
(`metadata.get('tool_used')`, `metadata.get('reasoning')`); other dict
entries never influence behaviour and are not modelled.  A falsy
metadata value (Python `None` or `{}`) is `Option.none` /
`⟨false, false⟩`, which are observationally identical here. -/
structure MemMetadata where
  tool_used : Bool
  reasoning : Bool
deriving DecidableEq

/-- One row of `long_term_memory` / one entry of `self.short_term`.
`hasEmbedding` records whether the embedding blob is non-null (the
source stores `None` when the embedder raises). -/
structure MemoryRecord where
  role : String
  content : String
  metadata : Option MemMetadata
  conversationId : Option Nat
  importance : ℚ
  hasEmbedding : Bool
deriving DecidableEq

/-- State of `EnhancedMemory`: the short-term list, the long-term table
(insertion order = autoincrement id order), the short-term bound, and
two effect counters — `embedCalls` counts calls into
`self.embedder.encode_query` and `compactionChecks` counts calls into
`_compress_old_memory_if_needed` (the compaction trigger).  `encodeOk`
abstracts the embedder: `false` means the call raised, in which case
the source logs and stores a null embedding. -/
structure EnhancedMemory where
  shortTerm : List MemoryRecord
  longTerm : List MemoryRecord
  maxShortTerm : Nat
  embedCalls : Nat
  compactionChecks : Nat
  encodeOk : String → Bool

/-- The importance keyword list of `_calculate_importance`. -/
def importantKeywords : List String :=
  ["importante", "recordar", "siempre", "nunca", "preferencia",
   "me gusta", "no me gusta", "quiero", "necesito"]

/-- `EnhancedMemory._calculate_importance`: base 0.5, +0.1 for role
`user`, +0.1 for length > 200 and +0.1 more for length > 500, +0.15
once if any keyword occurs in the lowercased content (the loop breaks
after the first hit), +0.1 per special metadata flag, capped at 1.0
(`min(importance, 1.0)`). -/
def calculate_importance (role content : String) (metadata : Option MemMetadata) : ℚ :=
  let importance : ℚ := 5/10
  let importance := if role = "user" then importance + 1/10 else importance
  let importance := if 200 < content.length then importance + 1/10 else importance
  let importance := if 500 < content.length then importance + 1/10 else importance
  let importance :=
    if importantKeywords.any (fun kw => strIn kw.toList (pyLower content)) then
      importance + 15/100
    else importance
  let importance :=
    match metadata with
    | some md =>
      let importance := if md.tool_used then importance + 1/10 else importance
      if md.reasoning then importance + 1/10 else importance
    | none => importance
  if importance ≤ 1 then importance else 1

/-- The guard `not content or not content.strip()`: true exactly when
every character of `content` is Python str-strip whitespace (the empty
string included). -/
def isBlankContent (content : String) : Bool :=
  content.toList.all (fun c =>
    c = ' ' ∨ c = '\t' ∨ c = '\n' ∨ c = '\r' ∨ c = '\x0b' ∨ c = '\x0c')

/-- `EnhancedMemory.add`: drop blank content; treat an importance of
exactly 0.5 (the parameter default) as "not supplied" and recompute it;
embed the content (counted, possibly failing to a null blob); insert
the row into the long-term table; append to short-term and pop the
oldest entry when the bound is exceeded; finally run the compaction
check. -/
def EnhancedMemory.add (m : EnhancedMemory) (role content : String)
    (metadata : Option MemMetadata) (conversationId : Option Nat)
    (importance : ℚ) : EnhancedMemory :=
  if isBlankContent content then m
  else
    let importance :=
      if importance = 5/10 then calculate_importance role content metadata
      else importance
    let record : MemoryRecord :=
      ⟨role, content, metadata, conversationId, importance, m.encodeOk content⟩
    let shortTerm := m.shortTerm ++ [record]
    let shortTerm :=
      if m.maxShortTerm < shortTerm.length then shortTerm.drop 1 else shortTerm
    { m with
      longTerm := m.longTerm ++ [record],
      shortTerm := shortTerm,
      embedCalls := m.embedCalls + 1,
      compactionChecks := m.compactionChecks + 1 }

/-! ## Embedding backend (`embeddings.py`) -/

/-- Which backend `EmbeddingBackend.__init__` selected. -/
inductive EmbBackendKind where
  | sentenceTransformers
  | tfidf
deriving DecidableEq

/-- Failures of the encode path: scikit-learn's guard against
transforming with an unfitted vectorizer, and the `[0]` lookup in
`encode_query`. -/
inductive EmbError where
  | notFitted
  | indexError
deriving DecidableEq

/-- State of `EmbeddingBackend`: the chosen backend and, for the TF-IDF
path, the corpus the vectorizer was last fitted on (`none` would mean
unfitted).  The numeric encoders themselves are opaque parameters
(`stEncode` for the sentence-transformers model, `tfidfEncode` for the
fitted vectorizer's transform), matching the spec's non-goal of fixing
any embedding model. -/
structure EmbeddingBackend where
  backend : EmbBackendKind
  fittedCorpus : Option (List String)
  stEncode : String → List ℚ
  tfidfEncode : List String → String → List ℚ

/-- `EmbeddingBackend.__init__`: prefer sentence-transformers; on
failure fall back to TF-IDF and immediately fit the vectorizer on the
dummy corpus `["initialization dummy text"]` ("to prevent
NotFittedError if used before ingestion"). -/
def EmbeddingBackend.init (stAvailable : Bool) (stEncode : String → List ℚ)
    (tfidfEncode : List String → String → List ℚ) : EmbeddingBackend :=
  if stAvailable then ⟨.sentenceTransformers, none, stEncode, tfidfEncode⟩
  else ⟨.tfidf, some ["initialization dummy text"], stEncode, tfidfEncode⟩

/-- `EmbeddingBackend.fit_corpus`: refit the vectorizer's vocabulary on
the given corpus; a no-op for the sentence-transformers backend. -/
def EmbeddingBackend.fit_corpus (b : EmbeddingBackend) (texts : List String) :
    EmbeddingBackend :=
  if b.backend = .tfidf then { b with fittedCorpus := some texts } else b

/-- `EmbeddingBackend.encode_texts`: encode with the model, or with the
fitted vectorizer; an unfitted vectorizer would fail with
scikit-learn's not-fitted error. -/
def EmbeddingBackend.encode_texts (b : EmbeddingBackend) (texts : List String) :
    Except EmbError (List (List ℚ)) :=
  match b.backend with
  | .sentenceTransformers => .ok (texts.map b.stEncode)
  | .tfidf =>
    match b.fittedCorpus with
    | some corpus => .ok (texts.map (b.tfidfEncode corpus))
    | none => .error .notFitted

/-- `EmbeddingBackend.encode_query`: `self.encode_texts([query])[0]`. -/
def EmbeddingBackend.encode_query (b : EmbeddingBackend) (query : String) :
    Except EmbError (List ℚ) :=
  match b.encode_texts [query] with
  | .ok vs =>
    match vs.head? with
    | some v => .ok v
    | none => .error .indexError
  | .error e => .error e

/-! ## Vector stores (`vector_store.py`) -/

/-- Failures of `add`: the explicit
`ValueError("Embeddings and metas size mismatch")` (the spec's
`DimensionMismatchError` on counts), and the error numpy's `vstack` /
FAISS's `add` raise when the incoming rows' width differs from the
stored ones' (the spec's `DimensionMismatchError` on widths). -/
inductive VSError where
  | countMismatch
  | widthMismatch
deriving DecidableEq

/-- `embeddings.shape[1]` of a row-major matrix (matrices handed over
by the embedder are rectangular, so the first row's length is the
width). -/
def npWidth (rows : List (List ℚ)) : Nat :=
  match rows with
  | [] => 0
  | r :: _ => r.length

/-- `InMemoryVectorStore`: `self._embeddings` starts as `None` and
grows by `np.vstack`; `self._metas` is a parallel list (the metadata
dicts are opaque, hence the type parameter). -/
structure InMemoryVectorStore (μ : Type) where
  embeddings : Option (List (List ℚ))
  metas : List μ

/-- A fresh `InMemoryVectorStore()`. -/
def InMemoryVectorStore.empty {μ : Type} : InMemoryVectorStore μ := ⟨none, []⟩

/-- `InMemoryVectorStore.add`: reject a row/metadata count mismatch
before touching any state; otherwise stack the rows (numpy's `vstack`
itself raises when the widths differ) and extend the metadata list. -/
def InMemoryVectorStore.add {μ : Type} (s : InMemoryVectorStore μ)
    (embeddings : List (List ℚ)) (metas : List μ) :
    Except VSError (InMemoryVectorStore μ) :=
  if embeddings.length ≠ metas.length then .error .countMismatch
  else
    match s.embeddings with
    | none => .ok ⟨some embeddings, s.metas ++ metas⟩
    | some stored =>
      if npWidth stored = npWidth embeddings then
        .ok ⟨some (stored ++ embeddings), s.metas ++ metas⟩
      else .error .widthMismatch

/-- `FaissVectorStore`: the index is `None` until `_ensure_index`
creates it with the dimension of the first batch; afterwards it holds
that dimension and the stored vectors.  FAISS availability is an
environment concern and is not modelled. -/
structure FaissVectorStore (μ : Type) where
  index : Option (Nat × List (List ℚ))
  metas : List μ

/-- A fresh `FaissVectorStore()`. -/
def FaissVectorStore.empty {μ : Type} : FaissVectorStore μ := ⟨none, []⟩

/-- `FaissVectorStore.add`: reject a row/metadata count mismatch first;
then ensure the index exists (first batch fixes the dimension) and add
the rows — FAISS raises when the incoming width differs from the
index's dimension — and extend the metadata list. -/
def FaissVectorStore.add {μ : Type} (s : FaissVectorStore μ)
    (embeddings : List (List ℚ)) (metas : List μ) :
    Except VSError (FaissVectorStore μ) :=
  if embeddings.length ≠ metas.length then .error .countMismatch
  else
    let dim := npWidth embeddings
    let idx :=
      match s.index with
      | none => (dim, ([] : List (List ℚ)))
      | some i => i
    if idx.1 = dim then .ok ⟨some (idx.1, idx.2 ++ embeddings), s.metas ++ metas⟩
    else .error .widthMismatch

/-! ## Retrieval orchestrator cache (`brain.py`) -/

/-- State of `Brain` relevant to `retrieve`: the cache dict
`self._retrieve_cache` (insertion-ordered: `next(iter(...))` is the
oldest-inserted key) and its bound `self._cache_max_size`.  `compute`
abstracts the cache-miss work — `encode_query`, `store.search` and the
text join — whose value plays no role in the caching behaviour. -/
structure Brain (μ : Type) where
  compute : String → Nat → μ
  retrieveCache : List (String × μ)
  cacheMaxSize : Nat

/-- The cache state set up by `Brain.__init__`: empty dict, bound 100. -/
def Brain.init {μ : Type} (compute : String → Nat → μ) : Brain μ :=
  ⟨compute, [], 100⟩

/-- The cache key `f"{query}::{top_k}"`. -/
def cacheKey (query : String) (topK : Nat) : String :=
  query ++ "::" ++ toString topK

/-- `Brain.retrieve`: return the cached value on a key hit; otherwise
compute, pop the oldest-inserted entry if the cache size already
exceeds the bound, and insert the new entry at the end. -/
def Brain.retrieve {μ : Type} (b : Brain μ) (query : String) (topK : Nat) :
    μ × Brain μ :=
  let key := cacheKey query topK
  match b.retrieveCache.find? (fun p => p.1 = key) with
  | some p => (p.2, b)
  | none =>
    let enriched := b.compute query topK
    let cache :=
      if b.cacheMaxSize < b.retrieveCache.length then b.retrieveCache.drop 1
      else b.retrieveCache
    (enriched, { b with retrieveCache := cache ++ [(key, enriched)] })

/-- Replay a sequence of `(query, top_k)` retrieve calls. -/
def Brain.retrieveMany {μ : Type} (b : Brain μ) (calls : List (String × Nat)) :
    Brain μ :=
  calls.foldl (fun b c => (b.retrieve c.1 c.2).2) b

/-! ## Theorems -/

/-- C5: `add_edge` with a source or target id that is not a key of the
node map leaves the graph (in particular its edge list) unchanged; the
function is total, mirroring the source's log-and-return path that
raises nothing. -/
theorem add_edge_missing_endpoint (g : KnowledgeGraph) (e : KnowledgeEdge)
    (h : g.containsNode e.source = false ∨ g.containsNode e.target = false) :
    g.add_edge e = g := by
  rcases h with h | h <;> simp [KnowledgeGraph.add_edge, h]

/-- Witness for C5: adding an edge between absent nodes to the empty
graph is a no-op. -/
theorem add_edge_missing_endpoint_witness :
    (KnowledgeGraph.empty.containsNode "x" = false ∨
      KnowledgeGraph.empty.containsNode "y" = false) ∧
    KnowledgeGraph.empty.add_edge ⟨"x", "y", "uses", 1, ∅⟩ = KnowledgeGraph.empty :=
  ⟨Or.inl rfl,
    add_edge_missing_endpoint KnowledgeGraph.empty ⟨"x", "y", "uses", 1, ∅⟩ (Or.inl rfl)⟩

/-- C9: `EnhancedMemory.add` with blank content (empty or whitespace
only) is a complete no-op: the long-term table, the short-term list,
the embed-call counter and the compaction-check counter are all left
exactly as they were. -/
theorem memory_add_blank_noop (m : EnhancedMemory) (role content : String)
    (metadata : Option MemMetadata) (conversationId : Option Nat) (importance : ℚ)
    (h : isBlankContent content = true) :
    m.add role content metadata conversationId importance = m := by
  simp [EnhancedMemory.add, h]

/-- A concrete `EnhancedMemory` state used by witnesses. -/
def memW : EnhancedMemory :=
  ⟨[], [⟨"user", "hey", none, none, 6/10, true⟩], 20, 1, 1, fun _ => true⟩

/-- Witness for C9: adding whitespace-only content to a concrete state
changes nothing. -/
theorem memory_add_blank_noop_witness :
    isBlankContent " \t\n " = true ∧
    memW.add "user" " \t\n " none none (5/10) = memW :=
  ⟨by decide, memory_add_blank_noop memW "user" " \t\n " none none (5/10) (by decide)⟩

/-- C10: for non-blank content, `add` stores one new long-term record
whose importance is `_calculate_importance(role, content, metadata)`
exactly when the supplied importance equals the 0.5 sentinel (even if a
caller passed 0.5 explicitly), and the supplied value unchanged
otherwise. -/
theorem memory_add_importance_sentinel (m : EnhancedMemory) (role content : String)
    (metadata : Option MemMetadata) (conversationId : Option Nat) (importance : ℚ)
    (h : isBlankContent content = false) :
    (m.add role content metadata conversationId importance).longTerm =
      m.longTerm ++ [⟨role, content, metadata, conversationId,
        (if importance = 5/10 then calculate_importance role content metadata
         else importance),
        m.encodeOk content⟩] := by
  simp [EnhancedMemory.add, h]

/-- Witness for C10: an explicit importance of 0.5 is recomputed, on a
concrete state and content. -/
theorem memory_add_importance_sentinel_witness :
    isBlankContent "hola" = false ∧
    (memW.add "user" "hola" none none (5/10)).longTerm =
      memW.longTerm ++ [⟨"user", "hola", none, none,
        (if (5/10 : ℚ) = 5/10 then calculate_importance "user" "hola" none
         else 5/10),
        memW.encodeOk "hola"⟩] :=
  ⟨by decide,
    memory_add_importance_sentinel memW "user" "hola" none none (5/10) (by decide)⟩

/-- The trivial sentence-transformers encoder used by concrete
embedding-backend states in counterexamples. -/
def zeroVec : String → List ℚ := fun _ => []

/-- The trivial fitted-vectorizer transform used by concrete
embedding-backend states in counterexamples. -/
def zeroVecCorpus : List String → String → List ℚ := fun _ _ => []

/-- Counterexample to C4: a freshly constructed TF-IDF backend (no
`fit_corpus` call has happened) encodes successfully — both
`encode_texts` and `encode_query` return `ok`, not the claimed
not-fitted failure — because `__init__` already fitted the vectorizer
on the dummy corpus. -/
theorem encode_before_fit_cex :
    (EmbeddingBackend.init false zeroVec zeroVecCorpus).backend = .tfidf ∧
    (EmbeddingBackend.init false zeroVec zeroVecCorpus).encode_texts ["hola"]
      = .ok [[]] ∧
    (EmbeddingBackend.init false zeroVec zeroVecCorpus).encode_query "hola"
      = .ok [] :=
  ⟨rfl, rfl, rfl⟩

/-- C4 amended: on the TF-IDF backend, encoding before any `fit_corpus`
call succeeds (never fails with a not-fitted error), returning vectors
produced from the dummy vocabulary `["initialization dummy text"]`
fitted by `__init__`. -/
theorem encode_before_fit_succeeds (stEncode : String → List ℚ)
    (tfidfEncode : List String → String → List ℚ) (texts : List String) :
    (EmbeddingBackend.init false stEncode tfidfEncode).encode_texts texts
      = .ok (texts.map (tfidfEncode ["initialization dummy text"])) := rfl

/-- A concrete in-memory store holding one 2-wide vector, used by the
C6 counterexample. -/
def storeW : InMemoryVectorStore String := ⟨some [[1, 0]], ["a"]⟩

/-- Counterexample to C6: with equal counts (one row, one metadata
entry) the add still fails when the incoming row's width (3) differs
from the stored width (2) — numpy's `vstack` raises — so "when the
counts are equal the add succeeds" is false as stated. -/
theorem vector_store_add_cex :
    [[(1 : ℚ), 0, 0]].length = ["b"].length ∧
    storeW.add [[1, 0, 0]] ["b"] = .error .widthMismatch :=
  ⟨rfl, rfl⟩

/-- C6 amended: on both stores, a row/metadata count mismatch fails
with the count-mismatch error (the source's
`ValueError("Embeddings and metas size mismatch")`, the spec's
`DimensionMismatchError`) leaving the store unchanged (`add` is pure:
the error carries no new state); with equal counts the add succeeds and
appends rows and metadata, provided the incoming width matches the
stored one (or the store is empty) — otherwise it fails with the
width-mismatch error. -/
theorem vector_store_add_spec {μ : Type} (s : InMemoryVectorStore μ)
    (t : FaissVectorStore μ) (rows : List (List ℚ)) (metas : List μ) :
    (rows.length ≠ metas.length →
      s.add rows metas = .error .countMismatch ∧
      t.add rows metas = .error .countMismatch) ∧
    (rows.length = metas.length →
      (s.embeddings = none →
        s.add rows metas = .ok ⟨some rows, s.metas ++ metas⟩) ∧
      (∀ stored, s.embeddings = some stored → npWidth stored = npWidth rows →
        s.add rows metas = .ok ⟨some (stored ++ rows), s.metas ++ metas⟩) ∧
      (∀ stored, s.embeddings = some stored → npWidth stored ≠ npWidth rows →
        s.add rows metas = .error .widthMismatch) ∧
      (t.index = none →
        t.add rows metas = .ok ⟨some (npWidth rows, rows), t.metas ++ metas⟩) ∧
      (∀ d vecs, t.index = some (d, vecs) → d = npWidth rows →
        t.add rows metas = .ok ⟨some (d, vecs ++ rows), t.metas ++ metas⟩) ∧
      (∀ d vecs, t.index = some (d, vecs) → d ≠ npWidth rows →
        t.add rows metas = .error .widthMismatch)) := by
  constructor
  · intro h
    constructor <;> simp [InMemoryVectorStore.add, FaissVectorStore.add, h]
  · intro h
    refine ⟨?_, ?_, ?_, ?_, ?_, ?_⟩
    · intro he; simp [InMemoryVectorStore.add, h, he]
    · intro stored he hw; simp [InMemoryVectorStore.add, h, he, hw]
    · intro stored he hw; simp [InMemoryVectorStore.add, h, he, hw]
    · intro hi; simp [FaissVectorStore.add, h, hi]
    · intro d vecs hi hw; simp [FaissVectorStore.add, h, hi, hw]
    · intro d vecs hi hw; simp [FaissVectorStore.add, h, hi, hw]

/-- Witness for C6: the theorem applied to fresh stores — equal counts
on an empty store succeed for both variants, and a count mismatch fails
for both. -/
theorem vector_store_add_spec_witness :
    ([[(1 : ℚ), 0]].length = ["a"].length ∧
      InMemoryVectorStore.empty.add [[(1 : ℚ), 0]] ["a"]
        = .ok ⟨some [[1, 0]], ["a"]⟩ ∧
      FaissVectorStore.empty.add [[(1 : ℚ), 0]] ["a"]
        = .ok ⟨some (2, [[1, 0]]), ["a"]⟩) ∧
    ([[(1 : ℚ), 0]].length ≠ ([] : List String).length ∧
      InMemoryVectorStore.empty.add [[(1 : ℚ), 0]] ([] : List String)
        = .error .countMismatch) := by
  have h₁ := (vector_store_add_spec InMemoryVectorStore.empty FaissVectorStore.empty
    [[(1 : ℚ), 0]] ["a"]).2 rfl
  have h₂ := (vector_store_add_spec InMemoryVectorStore.empty FaissVectorStore.empty
    [[(1 : ℚ), 0]] ([] : List String)).1 (by decide)
  exact ⟨⟨rfl, h₁.1 rfl, h₁.2.2.2.1 rfl⟩, ⟨by decide, h₂.1⟩⟩

set_option maxHeartbeats 3000000 in
/-- C3: `_calculate_importance` equals the spec's closed form — the
minimum of 1 and the base 0.5 plus the six independent bonuses — and
its value always lies in `[0, 1]`. -/
theorem calculate_importance_spec (role content : String)
    (metadata : Option MemMetadata) :
    calculate_importance role content metadata =
      min 1 (5/10
        + (if role = "user" then (1 : ℚ)/10 else 0)
        + (if 200 < content.length then (1 : ℚ)/10 else 0)
        + (if 500 < content.length then (1 : ℚ)/10 else 0)
        + (if importantKeywords.any (fun kw => strIn kw.toList (pyLower content))
            then (15 : ℚ)/100 else 0)
        + (if (match metadata with
               | some md => md.tool_used
               | none => false) then (1 : ℚ)/10 else 0)
        + (if (match metadata with
               | some md => md.reasoning
               | none => false) then (1 : ℚ)/10 else 0)) ∧
    0 ≤ calculate_importance role content metadata ∧
    calculate_importance role content metadata ≤ 1 := by
  rcases metadata with _ | md <;>
    refine ⟨?_, ?_, ?_⟩ <;>
    simp only [calculate_importance] <;>
    split_ifs <;>
    norm_num [min_def] at *

lemma retrieve_cacheMaxSize {μ : Type} (b : Brain μ) (q : String) (k : Nat) :
    (b.retrieve q k).2.cacheMaxSize = b.cacheMaxSize := by
  rcases h : b.retrieveCache.find? (fun p => p.1 = cacheKey q k) with _ | p <;>
    simp [Brain.retrieve, h]

lemma retrieve_cache_len {μ : Type} (b : Brain μ) (q : String) (k : Nat)
    (h : b.retrieveCache.length ≤ b.cacheMaxSize + 1) :
    (b.retrieve q k).2.retrieveCache.length ≤ b.cacheMaxSize + 1 := by
  rcases hf : b.retrieveCache.find? (fun p => p.1 = cacheKey q k) with _ | p
  · simp only [Brain.retrieve, hf]
    split
    next hcond =>
      simp only [List.length_append, List.length_drop, List.length_cons,
        List.length_nil]
      omega
    next hcond =>
      simp only [List.length_append, List.length_cons, List.length_nil]
      omega
  · simpa [Brain.retrieve, hf] using h

lemma retrieveMany_cacheMaxSize {μ : Type} (calls : List (String × Nat)) :
    ∀ b : Brain μ, (b.retrieveMany calls).cacheMaxSize = b.cacheMaxSize := by
  induction calls with
  | nil => intro b; rfl
  | cons c rest ih =>
    intro b
    have : b.retrieveMany (c :: rest) = ((b.retrieve c.1 c.2).2).retrieveMany rest := rfl
    rw [this, ih, retrieve_cacheMaxSize]

lemma retrieveMany_inv {μ : Type} (calls : List (String × Nat)) :
    ∀ b : Brain μ, b.retrieveCache.length ≤ b.cacheMaxSize + 1 →
      (b.retrieveMany calls).retrieveCache.length ≤
        (b.retrieveMany calls).cacheMaxSize + 1 := by
  induction calls with
  | nil => intro b hb; simpa [Brain.retrieveMany] using hb
  | cons c rest ih =>
    intro b hb
    have hstep := retrieve_cache_len b c.1 c.2 hb
    have hmax := retrieve_cacheMaxSize b c.1 c.2
    have := ih (b.retrieve c.1 c.2).2 (by rw [hmax]; exact hstep)
    simpa [Brain.retrieveMany] using this

/-- C7 amended: starting from `Brain.__init__`'s cache state, after any
sequence of `retrieve` calls the cache holds at most
`_cache_max_size + 1 = 101` entries (101 is reachable, so the claimed
bound of 100 is off by one); a key hit returns the cached value and
leaves the state unchanged; on a miss the oldest-inserted entry is
evicted only when the size already exceeds `_cache_max_size`, before
the new entry is appended. -/
theorem retrieve_cache_spec {μ : Type} (compute : String → Nat → μ)
    (calls : List (String × Nat)) :
    ((Brain.init compute).retrieveMany calls).retrieveCache.length ≤
      (Brain.init compute).cacheMaxSize + 1 ∧
    (∀ (b : Brain μ) (q : String) (k : Nat) (p : String × μ),
      b.retrieveCache.find? (fun x => x.1 = cacheKey q k) = some p →
      b.retrieve q k = (p.2, b)) ∧
    (∀ (b : Brain μ) (q : String) (k : Nat),
      b.retrieveCache.find? (fun x => x.1 = cacheKey q k) = none →
      (b.retrieve q k).2.retrieveCache =
        (if b.cacheMaxSize < b.retrieveCache.length then b.retrieveCache.drop 1
         else b.retrieveCache) ++ [(cacheKey q k, b.compute q k)]) := by
  refine ⟨?_, ?_, ?_⟩
  · have h0 : (Brain.init compute).retrieveCache.length ≤
        (Brain.init compute).cacheMaxSize + 1 := by simp [Brain.init]
    have h := retrieveMany_inv calls (Brain.init compute) h0
    calc ((Brain.init compute).retrieveMany calls).retrieveCache.length
        ≤ ((Brain.init compute).retrieveMany calls).cacheMaxSize + 1 := h
      _ = (Brain.init compute).cacheMaxSize + 1 := by
          rw [retrieveMany_cacheMaxSize]
  · intro b q k p hf
    simp [Brain.retrieve, hf]
  · intro b q k hf
    simp [Brain.retrieve, hf]

/-- A concrete `Brain` whose cache already holds the key `"q::4"`. -/
def brainHitW : Brain Nat := ⟨fun _ _ => 0, [("q::4", 7)], 100⟩

/-- A concrete `Brain` whose cache size (2) already exceeds its bound
(1), so the next miss evicts the oldest entry. -/
def brainMissW : Brain Nat := ⟨fun _ _ => 5, [("a::1", 1), ("b::1", 2)], 1⟩

/-- Witness for C7: a repeated `(q, 4)` call returns the cached value 7
without touching the state, and a miss on the over-full `brainMissW`
evicts the oldest entry `("a::1", 1)` before inserting. -/
theorem retrieve_cache_spec_witness :
    brainHitW.retrieve "q" 4 = (7, brainHitW) ∧
    (brainMissW.retrieve "c" 1).2.retrieveCache = [("b::1", 2), ("c::1", 5)] := by
  have h := retrieve_cache_spec (μ := Nat) (fun _ _ => 0) []
  constructor
  · exact h.2.1 brainHitW "q" 4 ("q::4", 7) (by decide)
  · rw [h.2.2 brainMissW "c" 1 (by decide)]
    decide

/-- The 101 distinct `(query, top_k)` calls used by the C7
counterexample. -/
def callsC7 : List (String × Nat) :=
  (List.range 101).map (fun i => (toString i, 4))

set_option maxRecDepth 10000 in
/-- Counterexample to C7: after 101 retrieve calls with distinct
queries, the cache of a freshly initialized `Brain` holds 101 entries —
strictly more than its configured `_cache_max_size` of 100 — because
the source evicts only when the size already exceeds the bound before
insertion. -/
theorem retrieve_cache_bound_cex :
    ((Brain.init (fun _ _ => ())).retrieveMany callsC7).cacheMaxSize <
      ((Brain.init (fun _ _ => ())).retrieveMany callsC7).retrieveCache.length := by
  decide

/-- No stored edge dangles: both endpoint ids of every edge are keys of
the node map. -/
def noDanglingEdges (g : KnowledgeGraph) : Bool :=
  g.edges.all (fun e => g.containsNode e.source && g.containsNode e.target)

lemma containsNode_add_node (g : KnowledgeGraph) (n : KnowledgeNode) (x : String)
    (h : g.containsNode x = true) : (g.add_node n).containsNode x = true := by
  simp only [KnowledgeGraph.containsNode, KnowledgeGraph.add_node, upsertNode,
    List.any_eq_true, decide_eq_true_eq] at h ⊢
  obtain ⟨p, hp, hpx⟩ := h
  split
  · refine ⟨if p.1 = n.id then (n.id, n) else p, List.mem_map.2 ⟨p, hp, rfl⟩, ?_⟩
    split
    next heq => simpa [← heq]
    next => exact hpx
  · exact ⟨p, List.mem_append_left _ hp, hpx⟩

lemma mergeEdge_source (old new : KnowledgeEdge) :
    (mergeEdge old new).source = old.source := by
  unfold mergeEdge; split <;> rfl

lemma mergeEdge_target (old new : KnowledgeEdge) :
    (mergeEdge old new).target = old.target := by
  unfold mergeEdge; split <;> rfl

lemma mem_updateFirstEdge {l : List KnowledgeEdge} {e x : KnowledgeEdge}
    (h : x ∈ updateFirstEdge l e) : x ∈ l ∨ ∃ y ∈ l, x = mergeEdge y e := by
  induction l with
  | nil => simp [updateFirstEdge] at h
  | cons a as ih =>
    simp only [updateFirstEdge] at h
    split at h
    · rcases List.mem_cons.1 h with hx | hx
      · exact Or.inr ⟨a, List.mem_cons_self a as, hx⟩
      · exact Or.inl (List.mem_cons_of_mem a hx)
    · rcases List.mem_cons.1 h with hx | hx
      · exact Or.inl (hx ▸ List.mem_cons_self a as)
      · rcases ih hx with h' | ⟨y, hy, hxy⟩
        · exact Or.inl (List.mem_cons_of_mem a h')
        · exact Or.inr ⟨y, List.mem_cons_of_mem a hy, hxy⟩

lemma noDanglingEdges_apply (g : KnowledgeGraph) (op : KGOp)
    (h : noDanglingEdges g = true) : noDanglingEdges (KGOp.apply g op) = true := by
  rcases op with n | e
  · simp only [KGOp.apply, noDanglingEdges, List.all_eq_true, Bool.and_eq_true] at h ⊢
    intro x hx
    have hx' := h x hx
    exact ⟨containsNode_add_node g n _ hx'.1, containsNode_add_node g n _ hx'.2⟩
  · simp only [KGOp.apply, KnowledgeGraph.add_edge]
    split
    next => exact h
    next hs =>
      split
      next => exact h
      next ht =>
        have hs' : g.containsNode e.source = true := by
          revert hs; cases g.containsNode e.source <;> simp
        have ht' : g.containsNode e.target = true := by
          revert ht; cases g.containsNode e.target <;> simp
        simp only [noDanglingEdges, List.all_eq_true, Bool.and_eq_true] at h ⊢
        split
        next =>
          intro x hx
          rcases mem_updateFirstEdge hx with hx' | ⟨y, hy, hxy⟩
          · exact h x hx'
          · have hy' := h y hy
            rw [hxy]
            simpa [mergeEdge_source, mergeEdge_target] using hy'
        next =>
          intro x hx
          rcases List.mem_append.1 hx with hx' | hx'
          · exact h x hx'
          · have hxe : x = e := by simpa using hx'
            subst hxe
            exact ⟨hs', ht'⟩

/-- C8: in every graph reachable from the empty one by `add_node` and
`add_edge` operations, no edge dangles — each stored edge's source and
target ids are keys of the node map (`add_edge` rejects missing
endpoints, `add_node` only upserts under an existing or fresh id, and
no operation deletes a node). -/
theorem replay_no_dangling_edges (ops : List KGOp) :
    noDanglingEdges (replayKG ops) = true := by
  suffices h : ∀ g : KnowledgeGraph, noDanglingEdges g = true →
      noDanglingEdges (ops.foldl KGOp.apply g) = true from h KnowledgeGraph.empty rfl
  induction ops with
  | nil => intro g hg; exact hg
  | cons op rest ih =>
    intro g hg
    exact ih (KGOp.apply g op) (noDanglingEdges_apply g op hg)

/-- The deduplication key of an edge: its (source, target,
relation_type) triple. -/
def keyOf (e : KnowledgeEdge) : String × String × String :=
  (e.source, e.target, e.relation_type)

lemma edgeKeyMatches_iff {x e : KnowledgeEdge} :
    edgeKeyMatches x e = true ↔ keyOf x = keyOf e := by
  simp [edgeKeyMatches, keyOf, Prod.ext_iff]

lemma mergeEdge_keyOf (old new : KnowledgeEdge) :
    keyOf (mergeEdge old new) = keyOf old := by
  unfold mergeEdge keyOf; split <;> rfl

lemma updateFirstEdge_map_keyOf (l : List KnowledgeEdge) (e : KnowledgeEdge) :
    (updateFirstEdge l e).map keyOf = l.map keyOf := by
  induction l with
  | nil => rfl
  | cons a as ih =>
    simp only [updateFirstEdge]
    split
    · simp [mergeEdge_keyOf]
    · simp [ih]

lemma updateFirstEdge_length (l : List KnowledgeEdge) (e : KnowledgeEdge) :
    (updateFirstEdge l e).length = l.length := by
  have h := congrArg List.length (updateFirstEdge_map_keyOf l e)
  simpa using h

lemma find?_append_of_all_false {α : Type} (p : α → Bool) (l₁ l₂ : List α)
    (h : ∀ y ∈ l₁, p y = false) : (l₁ ++ l₂).find? p = l₂.find? p := by
  induction l₁ with
  | nil => rfl
  | cons a as ih =>
    have ha := h a (List.mem_cons_self a as)
    rw [List.cons_append, List.find?_cons_of_neg _ (by simp [ha])]
    exact ih (fun y hy => h y (List.mem_cons_of_mem a hy))

lemma updateFirstEdge_decomp (l : List KnowledgeEdge) (e ex : KnowledgeEdge)
    (hex : ex ∈ l) (hkey : keyOf ex = keyOf e)
    (hpw : l.Pairwise (fun a b => keyOf a ≠ keyOf b)) :
    ∃ l₁ l₂, l = l₁ ++ ex :: l₂ ∧
      updateFirstEdge l e = l₁ ++ mergeEdge ex e :: l₂ ∧
      (∀ y ∈ l₁, keyOf y ≠ keyOf e) ∧ (∀ y ∈ l₂, keyOf y ≠ keyOf e) := by
  induction l with
  | nil => cases hex
  | cons a as ih =>
    rw [List.pairwise_cons] at hpw
    obtain ⟨ha, hpw'⟩ := hpw
    by_cases hmatch : edgeKeyMatches a e = true
    · have hae : keyOf a = keyOf e := edgeKeyMatches_iff.1 hmatch
      have hexa : ex = a := by
        rcases List.mem_cons.1 hex with h | h
        · exact h
        · exact absurd (hkey.trans hae.symm) (Ne.symm (ha ex h))
      subst hexa
      refine ⟨[], as, rfl, ?_, by simp, ?_⟩
      · simp [updateFirstEdge, hmatch]
      · intro y hy hyk
        exact ha y hy (hae.trans hyk.symm)
    · have hane : keyOf a ≠ keyOf e := fun hc => hmatch (edgeKeyMatches_iff.2 hc)
      have hexas : ex ∈ as := by
        rcases List.mem_cons.1 hex with h | h
        · exact absurd (h ▸ hkey) hane
        · exact h
      obtain ⟨l₁, l₂, h1, h2, h3, h4⟩ := ih hexas hpw'
      refine ⟨a :: l₁, l₂, by simp [h1], ?_, ?_, h4⟩
      · simp only [updateFirstEdge, hmatch]
        simp [h2]
      · intro y hy
        rcases List.mem_cons.1 hy with h | h
        · exact h ▸ hane
        · exact h3 y h

/-- C1: on a graph whose node map contains both endpoints of `e` and
whose edge list has pairwise-distinct (source, target, relation_type)
keys, `add_edge` preserves the at-most-one-edge-per-key invariant, and
whenever a stored edge `ex` already carries `e`'s key: the edge count
is unchanged; if `e.weight` is strictly greater, the edge stored under
that key now has weight `e.weight` and evidence
`ex.evidence ∪ e.evidence`; if `e.weight` is lower or equal (in
particular on an identical re-add), the graph is unchanged. -/
theorem add_edge_merge_law (g : KnowledgeGraph) (e : KnowledgeEdge)
    (hs : g.containsNode e.source = true) (ht : g.containsNode e.target = true)
    (hpw : g.edges.Pairwise (fun a b => keyOf a ≠ keyOf b)) :
    (g.add_edge e).edges.Pairwise (fun a b => keyOf a ≠ keyOf b) ∧
    ∀ ex ∈ g.edges, keyOf ex = keyOf e →
      (g.add_edge e).edges.length = g.edges.length ∧
      (ex.weight < e.weight →
        (g.add_edge e).edges.find? (fun x => edgeKeyMatches x e) =
          some ⟨ex.source, ex.target, ex.relation_type, e.weight,
            ex.evidence ∪ e.evidence⟩) ∧
      (e.weight ≤ ex.weight → g.add_edge e = g) := by
  have hadd : g.add_edge e =
      if g.edges.any (fun x => edgeKeyMatches x e) then
        { g with edges := updateFirstEdge g.edges e }
      else { g with edges := g.edges ++ [e] } := by
    simp [KnowledgeGraph.add_edge, hs, ht]
  by_cases hany : g.edges.any (fun x => edgeKeyMatches x e) = true
  · rw [hadd, if_pos hany]
    constructor
    · have hmap := updateFirstEdge_map_keyOf g.edges e
      have hpw2 : (g.edges.map keyOf).Pairwise (· ≠ ·) := List.pairwise_map.2 hpw
      have : ((updateFirstEdge g.edges e).map keyOf).Pairwise (· ≠ ·) :=
        hmap ▸ hpw2
      exact List.pairwise_map.1 this
    · intro ex hex hkey
      obtain ⟨l₁, l₂, h1, h2, h3, h4⟩ := updateFirstEdge_decomp g.edges e ex hex hkey hpw
      refine ⟨updateFirstEdge_length g.edges e, ?_, ?_⟩
      · intro hlt
        show (updateFirstEdge g.edges e).find? (fun x => edgeKeyMatches x e) = _
        have hfalse : ∀ y ∈ l₁, (fun x => edgeKeyMatches x e) y = false := by
          intro y hy
          cases hb : edgeKeyMatches y e
          · exact hb
          · exact absurd (edgeKeyMatches_iff.1 hb) (h3 y hy)
        rw [h2, find?_append_of_all_false _ l₁ _ hfalse]
        have hme : edgeKeyMatches (mergeEdge ex e) e = true :=
          edgeKeyMatches_iff.2 ((mergeEdge_keyOf ex e).trans hkey)
        rw [@List.find?_cons_of_pos _ (fun x => edgeKeyMatches x e)
          (mergeEdge ex e) l₂ hme]
        simp [mergeEdge, hlt]
      · intro hle
        have hmerge : mergeEdge ex e = ex := by
          simp [mergeEdge, not_lt.2 hle]
        show ({ g with edges := updateFirstEdge g.edges e } : KnowledgeGraph) = g
        rw [h2, hmerge, ← h1]
  · rw [hadd, if_neg hany]
    have hnone : ∀ x ∈ g.edges, keyOf x ≠ keyOf e := by
      intro x hx hc
      exact hany (List.any_eq_true.2 ⟨x, hx, edgeKeyMatches_iff.2 hc⟩)
    constructor
    · rw [List.pairwise_append]
      refine ⟨hpw, List.pairwise_singleton _ _, ?_⟩
      intro a ha b hb
      have : b = e := by simpa using hb
      exact this ▸ hnone a ha
    · intro ex hex hkey
      exact absurd hkey (hnone ex hex)

/-- The concrete graph used by the C1 witness: nodes `X`, `Y` and one
stored `uses` edge of weight 1/2 with evidence `{"a"}`. -/
def gW : KnowledgeGraph :=
  ⟨[("X", ⟨"X", "problem", "X", "", []⟩), ("Y", ⟨"Y", "action", "Y", "", []⟩)],
   [⟨"X", "Y", "uses", 1/2, {"a"}⟩]⟩

/-- The higher-weight re-add used by the C1 witness. -/
def eNewW : KnowledgeEdge := ⟨"X", "Y", "uses", 3/4, {"b"}⟩

/-- Witness for C1: re-adding the stored edge's key with weight 3/4 >
1/2 keeps the edge count at one and stores weight 3/4 with the evidence
union. -/
theorem add_edge_merge_law_witness :
    (gW.containsNode "X" = true ∧ gW.containsNode "Y" = true ∧
      (⟨"X", "Y", "uses", 1/2, {"a"}⟩ : KnowledgeEdge) ∈ gW.edges ∧
      (1/2 : ℚ) < 3/4) ∧
    (gW.add_edge eNewW).edges.length = gW.edges.length ∧
    (gW.add_edge eNewW).edges.find? (fun x => edgeKeyMatches x eNewW) =
      some ⟨"X", "Y", "uses", 3/4, ({"a"} : Finset String) ∪ {"b"}⟩ := by
  have h := add_edge_merge_law gW eNewW rfl rfl
    (List.pairwise_singleton _ _)
  have h2 := h.2 ⟨"X", "Y", "uses", 1/2, {"a"}⟩ (List.mem_cons_self _ _) rfl
  exact ⟨⟨rfl, rfl, List.mem_cons_self _ _, by norm_num⟩,
    h2.1, h2.2.1 (by show (1/2 : ℚ) < 3/4; norm_num)⟩

/-- The `problem` node of the C2 scenario. -/
def nP : KnowledgeNode := ⟨"P", "problem", "P", "", []⟩

/-- The `action` node of the C2 scenario. -/
def nA : KnowledgeNode := ⟨"A", "action", "A", "", []⟩

/-- The `result` node of the C2 scenario. -/
def nR : KnowledgeNode := ⟨"R", "result", "R", "", []⟩

/-- The `P -requires-> A` edge of the C2 scenario. -/
def ePA : KnowledgeEdge := ⟨"P", "A", "requires", 9/10, {"d1"}⟩

/-- The `A -produces-> R` edge of the C2 scenario. -/
def eAR : KnowledgeEdge := ⟨"A", "R", "produces", 8/10, {"d2"}⟩

/-- The C2 graph `P(problem) -requires-> A(action) -produces->
R(result)`, built through the public mutation operations. -/
def gC2 : KnowledgeGraph :=
  replayKG [.addNode nP, .addNode nA, .addNode nR, .addEdge ePA, .addEdge eAR]

/-- Counterexample to C2: `find_solution_path("P", max_depth=3)` on the
`P -requires-> A -produces-> R` graph returns exactly one path, but its
step list (and reported `length` field) has length 3 — the start
problem node is step 1, `A` step 2 and `R` step 3 — not the claimed
length 2. -/
theorem find_solution_path_cex :
    (gC2.find_solution_path "P" 3).length = 1 ∧
    (gC2.find_solution_path "P" 3).map FormattedPath.length ≠ [2] := by
  with_unfolding_all decide

/-- C2 amended: on the C2 graph, `find_solution_path("P", max_depth=3)`
returns exactly one path, whose step list has length 3 — the start
problem node `P`, then `A` via `requires`, then `R` via `produces` —
and whose score 21/10 is strictly positive. -/
theorem find_solution_path_PAR :
    gC2.find_solution_path "P" 3 =
      [⟨[⟨1, nP, "start", "problem"⟩, ⟨2, nA, "requires", "action"⟩,
         ⟨3, nR, "produces", "result"⟩], 3, 21/10, ["P", "A", "R"]⟩] ∧
    (0 : ℚ) < 21/10 := by
  with_unfolding_all decide

end IntegraMind
